import Mathlib

/-!
Verification of the streaming-upload progress tracker (`src/app.py`).

The development shallowly embeds the functional content of `app.py`,
keeping the source's own order (formatter first, then the tracked file,
then the request class):

* `human_readable_filesize` (app.py lines 8-21).  The Python code
  computes with IEEE doubles.  Every float operation it performs after
  the first one is exact: dividing a double by 1024 only decrements the
  exponent, and the comparisons and `'{:.1f}'` formatting read the exact
  binary value.  The single rounding step is the implicit conversion of
  the integer argument to a double at `b /= thresh`: round to 53
  significant bits, ties to even, `OverflowError` when the result would
  reach `2 ^ 1024`.  `floatOfNat` models that conversion exactly
  (`roundNearestEven` is the IEEE rounding of an integer), after which
  the loop and the formatting are computed on the exact value; `round10`
  reproduces the one-decimal rounding (ties to even) of `'{:.1f}'`.
  `none` models the two failure modes of the source: `OverflowError`
  from the conversion, and `IndexError` from `units[u]` when the unit
  index leaves the 8-element tuple.  Inputs below 1024 never reach the
  conversion: the source formats the integer itself.
* `pyInt` models Python's `int(str)` on latin-1 strings (the alphabet of
  HTTP header values): strip Python whitespace, an optional sign, then
  decimal digits with single underscores allowed between digits.
* `CustomTemporaryFile.write` / `.close` (lines 47-59): the tracked
  sink; the outcome of the underlying `tempfile` operation is abstracted
  as an explicit `Except` argument.
* `CustomRequest` (lines 62-142).  Its mutable attributes become the
  record `RequestState`; the Python dict `self.progress` becomes an
  association list with dict update semantics (`dictSet`/`dictGet`);
  raising paths return `Except.error` — `KeyError` from a missing dict
  key, `IndexError` propagated out of `human_readable_filesize` by the
  announcement print of `__init__` (line 86) and by the progress print
  of `file_write_func` (lines 132-136).  `CustomRequest.close` first
  runs `super().close()`, which closes every uploaded file's stream and
  thereby calls `file_close_func` on each uploaded filename
  (`closeFiles`), then runs the `closed`-guarded flag update
  (`finalizeFlag`).
-/

/-- One value of the Python dict `self.progress[filename]`
(app.py lines 97-100): `{'uploaded_bytes': ..., 'complete': ...}`. -/
structure ProgressEntry where
  uploaded_bytes : Nat
  complete : Bool
  deriving DecidableEq

/-- The mutable attributes of `CustomRequest` that the tracker logic
reads or writes (app.py lines 67-89). -/
structure RequestState where
  closed : Bool
  upload_request : Bool
  content_length : Int
  progress : List (String × ProgressEntry)
  previous_file : Option String
  deriving DecidableEq

/-- Python dict lookup `m[k]` as used on `self.progress`:
`none` models a `KeyError`. -/
def dictGet : List (String × ProgressEntry) → String → Option ProgressEntry
  | [], _ => none
  | (k', v) :: rest, k => if k' = k then some v else dictGet rest k

/-- Python dict item assignment `m[k] = v`: replace the binding if the key
is present, otherwise add it. -/
def dictSet : List (String × ProgressEntry) → String → ProgressEntry → List (String × ProgressEntry)
  | [], k, v => [(k, v)]
  | (k', v') :: rest, k, v =>
    if k' = k then (k, v) :: rest else (k', v') :: dictSet rest k v

/-- The value displayed by Python's `'{:.1f}'.format` on the exact value
`num / den` (`den ≠ 0`), as an integer count of tenths: the value is
scaled by ten and rounded to the nearest integer, ties to even — exactly
how `'{:.1f}'` rounds the (here exactly represented) binary value.  The
computation only compares the fractional part `r / den` with `1/2`, so it
is invariant under common factors of the pair and the unreduced fraction
can be passed directly. -/
def round10 (num den : Nat) : Nat :=
  let n := 10 * num / den
  let r := 10 * num % den
  if 2 * r < den then n
  else if den < 2 * r then n + 1
  else if n % 2 = 0 then n else n + 1

/-- Python's `'{:.1f}'.format` on the non-negative exact value
`num / den`: one decimal place, correctly rounded with ties to even. -/
def fmt1 (num den : Nat) : String :=
  let n10 := round10 num den
  toString (n10 / 10) ++ "." ++ toString (n10 % 10)

/-- The `units` tuple of `human_readable_filesize` (app.py line 15). -/
def hr_units : List String := ["KiB", "MiB", "GiB", "TiB", "PiB", "EiB", "ZiB", "YiB"]

/-- Helper for `unitIndex`: the loop body, made structurally recursive on
a fuel argument so that concrete values reduce in the kernel; a fuel of
`v` always suffices because `v / 1024 < v` on every iteration. -/
def unitIndexAux : Nat → Nat → Nat
  | 0, _ => 0
  | fuel + 1, v => if 1024 ≤ v then unitIndexAux fuel (v / 1024) + 1 else 0

/-- The `while b >= thresh: b /= thresh; u += 1` loop of
`human_readable_filesize` (app.py lines 18-20), applied to the (already
converted, integer-valued) float after the first division: the exact
value `f / 1024^(k+1)` is at least 1024 precisely when the natural number
`f / 1024^(k+1)` (floor division) is, so the loop count is computed on
naturals. -/
def unitIndex (v : Nat) : Nat := unitIndexAux v v

/-- Helper for `pyLog2`: structurally recursive on a fuel argument so
that concrete values reduce in the kernel; a fuel of `n` suffices since
`n / 2 < n` on every iteration. -/
def log2Aux : Nat → Nat → Nat
  | 0, _ => 0
  | fuel + 1, n => if 2 ≤ n then log2Aux fuel (n / 2) + 1 else 0

/-- The floor base-2 logarithm (the exponent of an integer's leading
bit), used to find the rounding position of the int-to-double
conversion. -/
def pyLog2 (n : Nat) : Nat := log2Aux n n

/-- Round the exact value `num / den` (`den ≠ 0`) to the nearest integer,
ties to even — the IEEE-754 rounding step used when an integer is
converted to a double. -/
def roundNearestEven (num den : Nat) : Nat :=
  if 2 * (num % den) < den then num / den
  else if den < 2 * (num % den) then num / den + 1
  else if num / den % 2 = 0 then num / den
  else num / den + 1

/-- CPython's conversion of a non-negative `int` to a `float` (the
implicit conversion at `b /= thresh`, app.py line 17): integers below
`2 ^ 53` are exactly representable; a larger integer is rounded to 53
significant bits (round to nearest, ties to even); `none` models the
`OverflowError` raised when the rounded value reaches `2 ^ 1024`.  The
result is returned as the exact integer value of the double. -/
def floatOfNat (b : Nat) : Option Nat :=
  if b < 2 ^ 53 then some b
  else
    if roundNearestEven b (2 ^ (pyLog2 b - 52)) * 2 ^ (pyLog2 b - 52) < 2 ^ 1024 then
      some (roundNearestEven b (2 ^ (pyLog2 b - 52)) * 2 ^ (pyLog2 b - 52))
    else none

/-- `human_readable_filesize` (app.py lines 8-21): an input below 1024 is
formatted directly as an integer in the `B` branch; otherwise the input
is converted to a double (`floatOfNat`) and repeatedly divided by 1024 —
exactly — so the displayed value is `f / 1024^(u+1)` for the converted
value `f`, rendered with one decimal and the unit `units[u]`.  `none`
models the raised `OverflowError` (conversion) or `IndexError`
(`units[u]` with `u ≥ 8`). -/
def human_readable_filesize (b : Nat) : Option String :=
  if b < 1024 then some (fmt1 b 1 ++ " B")
  else
    match floatOfNat b with
    | none => none
    | some f =>
      match hr_units[unitIndex (f / 1024)]? with
      | some unit =>
        some (fmt1 f (1024 ^ (unitIndex (f / 1024) + 1)) ++ " " ++ unit)
      | none => none

/-- `human_readable_filesize` applied to a Python `int` that may be
negative (the parsed Content-Length in `__init__`): a negative value is
below the 1024 threshold and is formatted in the `B` branch with a minus
sign. -/
def human_readable_filesize_int (b : Int) : Option String :=
  if b < 0 then some ("-" ++ fmt1 (-b).toNat 1 ++ " B")
  else human_readable_filesize b.toNat

/-- Modelled from the spec's words (§6 outbound formatter contract), for
comparison with `human_readable_filesize`: render in `B` when the raw
value is below 1024, otherwise pick the first unit among KiB..YiB for
which the displayed value — the scaled value after rounding to one
decimal — is below 1024, and render the scaled value with one decimal
place and that unit. -/
def spec_filesize (b : Nat) : Option String :=
  if b < 1024 then some (fmt1 b 1 ++ " B")
  else
    match (List.range hr_units.length).find?
        (fun u => round10 b (1024 ^ (u + 1)) < 10240) with
    | some u => (hr_units[u]?).map (fun unit => fmt1 b (1024 ^ (u + 1)) ++ " " ++ unit)
    | none => none

/-- The characters Python's `int(str)` strips from both ends: the code
points of the latin-1 range (the alphabet of HTTP header values) whose
`str.isspace()` is true. -/
def pyWhitespace (c : Char) : Bool :=
  c.toNat = 32 ∨ (9 ≤ c.toNat ∧ c.toNat ≤ 13) ∨ (28 ≤ c.toNat ∧ c.toNat ≤ 31) ∨
    c.toNat = 133 ∨ c.toNat = 160

/-- After a first digit has been read (accumulated in `acc`): further
digits, with single underscores allowed only between digits (PEP 515),
as Python's `int` accepts; `none` models a `ValueError`. -/
def pyDigitsAux : List Char → Nat → Option Nat
  | [], acc => some acc
  | '_' :: c :: rest, acc =>
    if c.isDigit then pyDigitsAux rest (10 * acc + (c.toNat - 48)) else none
  | ['_'], _ => none
  | c :: rest, acc =>
    if c.isDigit then pyDigitsAux rest (10 * acc + (c.toNat - 48)) else none

/-- A digit part for Python's `int`: at least one digit, then
`pyDigitsAux`. -/
def pyDigits : List Char → Option Nat
  | [] => none
  | c :: rest => if c.isDigit then pyDigitsAux rest (c.toNat - 48) else none

/-- Python's `int(s)` in base 10 on a latin-1 string (the decoded form of
an HTTP header value): strip whitespace from both ends, an optional
sign, then a digit part with single underscores between digits; `none`
models a raised `ValueError`. -/
def pyInt (s : String) : Option Int :=
  match (List.dropWhile pyWhitespace (List.dropWhile pyWhitespace s.data).reverse).reverse with
  | '-' :: rest => (pyDigits rest).map (fun n => -(n : Int))
  | '+' :: rest => (pyDigits rest).map (fun n => (n : Int))
  | l => (pyDigits l).map (fun n => (n : Int))

/-- The attribute assignments of `CustomRequest.__init__`
(app.py lines 67-89): `closed = False`,
`upload_request = (method == 'POST')`; for an upload request the
progress dict starts empty, `previous_file = None`, and
`int(self.headers['Content-Length'])` is attempted — an absent header
(`KeyError`) or an unparseable one (`ValueError`) falls into the bare
`except:` and yields `content_length = 0`. -/
def CustomRequest_attrs (method : String) (hdr : Option String) : RequestState :=
  { closed := false
    upload_request := method == "POST"
    content_length :=
      if method == "POST" then
        match hdr with
        | none => 0
        | some v => (pyInt v).getD 0
      else 0
    progress := []
    previous_file := none }

/-- `CustomRequest.__init__` as a whole: the attribute assignments
(`CustomRequest_attrs`) followed, on an upload request, by the
announcement print (app.py lines 84-87), whose
`human_readable_filesize(self.content_length)` call propagates an
`IndexError` when the parsed length is at least `1024 ^ 9`. -/
def CustomRequest_init (method : String) (hdr : Option String) : Except String RequestState :=
  if (CustomRequest_attrs method hdr).upload_request then
    match human_readable_filesize_int (CustomRequest_attrs method hdr).content_length with
    | some _ => .ok (CustomRequest_attrs method hdr)
    | none => .error "IndexError"
  else .ok (CustomRequest_attrs method hdr)

/-- `CustomRequest._get_file_stream` (app.py lines 91-102): on an upload
request it unconditionally (re)binds `self.progress[filename]` to
`{'uploaded_bytes': 0, 'complete': False}`.  (The returned
`CustomTemporaryFile` is modelled separately; only the tracker-state
effect matters here.) -/
def _get_file_stream (filename : String) (s : RequestState) : RequestState :=
  if s.upload_request then
    { s with progress := dictSet s.progress filename ⟨0, false⟩ }
  else s

/-- `CustomRequest.file_write_func` (app.py lines 117-136): a no-op when
`self.closed`; otherwise, on an upload request,
`self.progress[filename]['uploaded_bytes'] += length` — a `KeyError`
(modelled as `Except.error`) when no entry exists — then
`self.previous_file` is assigned `filename` when it differs (the inner
check otherwise only governs printing a newline), and finally the
progress print formats the new total with `human_readable_filesize`,
which raises `IndexError` when the total is too large for the unit
tuple. -/
def file_write_func (filename : String) (length : Nat) (s : RequestState) :
    Except String RequestState :=
  if s.closed then .ok s
  else if s.upload_request then
    match dictGet s.progress filename with
    | none => .error "KeyError"
    | some entry =>
      let s' := { s with
        progress := dictSet s.progress filename ⟨entry.uploaded_bytes + length, entry.complete⟩ }
      let s'' := if s'.previous_file ≠ some filename then { s' with previous_file := some filename } else s'
      match human_readable_filesize (entry.uploaded_bytes + length) with
      | some _ => .ok s''
      | none => .error "IndexError"
  else .ok s

/-- `CustomRequest.file_close_func` (app.py lines 138-142):
`self.progress[filename]['complete'] = True`, with no guard — a
`KeyError` when no entry exists for `filename`.  (This function contains
no print.) -/
def file_close_func (filename : String) (s : RequestState) : Except String RequestState :=
  match dictGet s.progress filename with
  | none => .error "KeyError"
  | some entry =>
    .ok { s with progress := dictSet s.progress filename ⟨entry.uploaded_bytes, true⟩ }

/-- The tracker effect of werkzeug's `Request.close` inside
`super().close()` (app.py line 108): it closes the `FileStorage` stream
of every uploaded file part, and each stream is a `CustomTemporaryFile`
whose `close` calls `file_close_func` with its filename.  `files` is the
list of those filenames, in order. -/
def closeFiles : List String → RequestState → Except String RequestState
  | [], s => .ok s
  | f :: rest, s =>
    match file_close_func f s with
    | .error e => .error e
    | .ok s' => closeFiles rest s'

/-- The guarded tail of `CustomRequest.close` (app.py lines 110-115):
return at once when `self.closed` is already set, otherwise set it (the
print has no tracker effect). -/
def finalizeFlag (s : RequestState) : RequestState :=
  if s.closed then s else { s with closed := true }

/-- `CustomRequest.close` (app.py lines 104-115): first
`super().close()` — closing every uploaded file's stream, hence
`file_close_func` on every uploaded filename — then the `closed`-guarded
flag update.  Note the superclass close runs on every call, before the
guard. -/
def CustomRequest_close (files : List String) (s : RequestState) : Except String RequestState :=
  match closeFiles files s with
  | .error e => .error e
  | .ok t => .ok (finalizeFlag t)

/-- `CustomTemporaryFile.write` (app.py lines 47-52):
`bytes_written = self.f.write(b)` followed by
`self.onionshare_write_func(filename, bytes_written)`.  The underlying
`tempfile` write is abstracted as `underlying : Except String Nat` — the
count of bytes it actually accepted, or a raised I/O error; `bufLen` is
`len(b)`, the size of the caller's buffer, which the tracker never uses.
When the underlying write raises, the exception propagates before the
reporter is called. -/
def CustomTemporaryFile_write (filename : String) (bufLen : Nat)
    (underlying : Except String Nat) (s : RequestState) : Except String RequestState :=
  match bufLen, underlying with
  | _, .error e => .error e
  | _, .ok bytes_written => file_write_func filename bytes_written s

/-- `CustomTemporaryFile.close` (app.py lines 54-59): `self.f.close()`
followed by `self.onionshare_close_func(filename)`; a raise in the
underlying close propagates before completion is reported. -/
def CustomTemporaryFile_close (filename : String)
    (underlying : Except String Unit) (s : RequestState) : Except String RequestState :=
  match underlying with
  | .error e => .error e
  | .ok _ => file_close_func filename s

/-- The tracker events a request can observe: stream creation for a file
part, a write to a part, closing a part, and closing the request (which
carries the filenames whose streams `super().close()` will close). -/
inductive Ev where
  | getStream (filename : String)
  | fileWrite (filename : String) (length : Nat)
  | fileClose (filename : String)
  | reqClose (files : List String)
  deriving DecidableEq

/-- Dispatch one event to the corresponding `CustomRequest` method. -/
def step (s : RequestState) : Ev → Except String RequestState
  | .getStream f => .ok (_get_file_stream f s)
  | .fileWrite f len => file_write_func f len s
  | .fileClose f => file_close_func f s
  | .reqClose files => CustomRequest_close files s

/-- Run a sequence of events; a raised exception aborts the rest, as in
Python. -/
def applyEvents : List Ev → RequestState → Except String RequestState
  | [], s => .ok s
  | ev :: rest, s =>
    match step s ev with
    | .error e => .error e
    | .ok s' => applyEvents rest s'

lemma dictGet_dictSet_self (m : List (String × ProgressEntry)) (k : String) (v : ProgressEntry) :
    dictGet (dictSet m k v) k = some v := by
  induction m with
  | nil => simp [dictSet, dictGet]
  | cons hd tl ih =>
    obtain ⟨k', v'⟩ := hd
    by_cases h : k' = k
    · simp [dictSet, dictGet, h]
    · simp [dictSet, dictGet, h, ih]

lemma dictGet_dictSet_ne (m : List (String × ProgressEntry)) (k k' : String) (v : ProgressEntry)
    (h : k ≠ k') : dictGet (dictSet m k v) k' = dictGet m k' := by
  induction m with
  | nil => simp [dictSet, dictGet, h]
  | cons hd tl ih =>
    obtain ⟨k₀, v₀⟩ := hd
    by_cases h0 : k₀ = k
    · subst h0; simp [dictSet, dictGet, h]
    · simp [dictSet, dictGet, h0, ih]

lemma unitIndexAux_zero (fuel : Nat) : unitIndexAux fuel 0 = 0 := by
  cases fuel <;> simp [unitIndexAux]

lemma unitIndexAux_congr (fuel : Nat) :
    ∀ fuel' v, v ≤ fuel → v ≤ fuel' → unitIndexAux fuel v = unitIndexAux fuel' v := by
  induction fuel with
  | zero =>
    intro fuel' v hv _
    interval_cases v
    simp [unitIndexAux_zero]
  | succ f ih =>
    intro fuel' v hv hv'
    cases fuel' with
    | zero =>
      interval_cases v
      simp [unitIndexAux_zero]
    | succ f' =>
      simp only [unitIndexAux]
      by_cases h : 1024 ≤ v
      · have hlt : v / 1024 < v := Nat.div_lt_self (by omega) (by omega)
        rw [ih f' (v / 1024) (by omega) (by omega)]
      · simp [h]

/-- The defining recurrence of the `while` loop. -/
lemma unitIndex_eq (v : Nat) :
    unitIndex v = if 1024 ≤ v then unitIndex (v / 1024) + 1 else 0 := by
  by_cases h : 1024 ≤ v
  · have hlt : v / 1024 < v := Nat.div_lt_self (by omega) (by omega)
    obtain ⟨w, rfl⟩ : ∃ w, v = w + 1 := ⟨v - 1, by omega⟩
    simp only [unitIndex, unitIndexAux, h, if_true]
    rw [unitIndexAux_congr w ((w + 1) / 1024) ((w + 1) / 1024) (by omega) (le_refl _)]
  · obtain ⟨w, rfl⟩ | rfl : (∃ w, v = w + 1) ∨ v = 0 := by
      rcases v with _ | w
      · exact Or.inr rfl
      · exact Or.inl ⟨w, rfl⟩
    · simp [unitIndex, unitIndexAux, h]
    · simp [unitIndex, unitIndexAux_zero, h]

lemma unitIndex_of_lt (v : Nat) (h : v < 1024) : unitIndex v = 0 := by
  rw [unitIndex_eq, if_neg (by omega)]

lemma unitIndex_of_le (v : Nat) (h : 1024 ≤ v) :
    unitIndex v = unitIndex (v / 1024) + 1 := by
  rw [unitIndex_eq, if_pos h]

/-- The loop exits with the scaled value below the threshold. -/
lemma lt_pow_unitIndex (v : Nat) : v < 1024 ^ (unitIndex v + 1) := by
  induction v using Nat.strong_induction_on with
  | _ v ih =>
    by_cases h : 1024 ≤ v
    · rw [unitIndex_of_le v h]
      have hlt : v / 1024 < v := Nat.div_lt_self (by omega) (by omega)
      have hdiv := ih (v / 1024) hlt
      have hmod := Nat.div_add_mod v 1024
      have hm : v % 1024 < 1024 := Nat.mod_lt _ (by omega)
      calc v < 1024 * (v / 1024 + 1) := by omega
        _ ≤ 1024 * 1024 ^ (unitIndex (v / 1024) + 1) := by
            exact Nat.mul_le_mul_left _ hdiv
        _ = 1024 ^ (unitIndex (v / 1024) + 1 + 1) := by ring
    · rw [unitIndex_of_lt v (by omega)]
      simpa using h

/-- Minimality direction: the loop count never overshoots. -/
lemma unitIndex_le_of_lt_pow (k : Nat) :
    ∀ v, v < 1024 ^ (k + 1) → unitIndex v ≤ k := by
  induction k with
  | zero =>
    intro v hv
    rw [unitIndex_of_lt v (by simpa using hv)]
  | succ k ih =>
    intro v hv
    by_cases h : 1024 ≤ v
    · rw [unitIndex_of_le v h]
      have : v / 1024 < 1024 ^ (k + 1) := by
        apply Nat.div_lt_of_lt_mul
        calc v < 1024 ^ (k + 2) := hv
          _ = 1024 * 1024 ^ (k + 1) := by ring
      exact Nat.succ_le_succ (ih _ this)
    · rw [unitIndex_of_lt v (by omega)]; omega

/-- The loop count grows with the input. -/
lemma le_unitIndex_of_pow_le (k : Nat) :
    ∀ v, 1024 ^ (k + 1) ≤ v → k + 1 ≤ unitIndex v := by
  induction k with
  | zero =>
    intro v hv
    rw [unitIndex_of_le v (by simpa using hv)]
    omega
  | succ k ih =>
    intro v hv
    have hv1024 : 1024 ≤ v := by
      calc (1024 : Nat) = 1024 ^ 1 := (pow_one _).symm
        _ ≤ 1024 ^ (k + 2) := Nat.pow_le_pow_right (by omega) (by omega)
        _ ≤ v := hv
    rw [unitIndex_of_le v hv1024]
    have : 1024 ^ (k + 1) ≤ v / 1024 := by
      rw [Nat.le_div_iff_mul_le (by omega)]
      calc 1024 ^ (k + 1) * 1024 = 1024 ^ (k + 2) := by ring
        _ ≤ v := hv
    exact Nat.succ_le_succ (ih _ this)

/-! ### The int-to-double conversion -/

lemma log2Aux_zero (fuel : Nat) : log2Aux fuel 0 = 0 := by
  cases fuel <;> simp [log2Aux]

lemma log2Aux_congr (fuel : Nat) :
    ∀ fuel' n, n ≤ fuel → n ≤ fuel' → log2Aux fuel n = log2Aux fuel' n := by
  induction fuel with
  | zero =>
    intro fuel' n hn _
    interval_cases n
    simp [log2Aux_zero]
  | succ f ih =>
    intro fuel' n hn hn'
    cases fuel' with
    | zero =>
      interval_cases n
      simp [log2Aux_zero]
    | succ f' =>
      simp only [log2Aux]
      by_cases h : 2 ≤ n
      · have hlt : n / 2 < n := Nat.div_lt_self (by omega) (by omega)
        rw [ih f' (n / 2) (by omega) (by omega)]
      · simp [h]

lemma pyLog2_eq (n : Nat) :
    pyLog2 n = if 2 ≤ n then pyLog2 (n / 2) + 1 else 0 := by
  by_cases h : 2 ≤ n
  · have hlt : n / 2 < n := Nat.div_lt_self (by omega) (by omega)
    obtain ⟨w, rfl⟩ : ∃ w, n = w + 1 := ⟨n - 1, by omega⟩
    simp only [pyLog2, log2Aux, h, if_true]
    rw [log2Aux_congr w ((w + 1) / 2) ((w + 1) / 2) (by omega) (le_refl _)]
  · obtain ⟨w, rfl⟩ | rfl : (∃ w, n = w + 1) ∨ n = 0 := by
      rcases n with _ | w
      · exact Or.inr rfl
      · exact Or.inl ⟨w, rfl⟩
    · simp [pyLog2, log2Aux, h]
    · simp [pyLog2, log2Aux_zero, h]

/-- The leading bit is no larger than the number. -/
lemma pow_pyLog2_le (n : Nat) (hn : n ≠ 0) : 2 ^ pyLog2 n ≤ n := by
  induction n using Nat.strong_induction_on with
  | _ n ih =>
    by_cases h : 2 ≤ n
    · rw [pyLog2_eq, if_pos h]
      have hlt : n / 2 < n := Nat.div_lt_self (by omega) (by omega)
      have hne : n / 2 ≠ 0 := by
        have : 1 ≤ n / 2 := (Nat.le_div_iff_mul_le (by omega)).mpr (by omega)
        omega
      have := ih (n / 2) hlt hne
      have hdm := Nat.div_add_mod n 2
      calc 2 ^ (pyLog2 (n / 2) + 1) = 2 * 2 ^ pyLog2 (n / 2) := by ring
        _ ≤ 2 * (n / 2) := by omega
        _ ≤ n := by omega
    · rw [pyLog2_eq, if_neg h]
      omega

/-- The floor logarithm dominates any exponent whose power fits. -/
lemma le_pyLog2_of_pow_le (k : Nat) : ∀ n, 2 ^ k ≤ n → k ≤ pyLog2 n := by
  induction k with
  | zero => intro n _; omega
  | succ k ih =>
    intro n hn
    have h2 : 2 ≤ n := by
      have : (2 : Nat) = 2 ^ 1 := (pow_one _).symm
      have h21 : (2 : Nat) ^ 1 ≤ 2 ^ (k + 1) := Nat.pow_le_pow_right (by omega) (by omega)
      omega
    rw [pyLog2_eq, if_pos h2]
    have : 2 ^ k ≤ n / 2 := by
      rw [Nat.le_div_iff_mul_le (by omega)]
      calc 2 ^ k * 2 = 2 ^ (k + 1) := by ring
        _ ≤ n := hn
    exact Nat.succ_le_succ (ih _ this)

lemma roundNearestEven_ge (num den : Nat) : num / den ≤ roundNearestEven num den := by
  unfold roundNearestEven
  split
  · exact le_refl _
  split
  · exact Nat.le_succ _
  split
  · exact le_refl _
  · exact Nat.le_succ _

lemma floatOfNat_of_lt (b : Nat) (h : b < 2 ^ 53) : floatOfNat b = some b := by
  unfold floatOfNat
  rw [if_pos h]

/-- Rounding a large integer to a double never drops it below a power of
two it had reached: the conversion preserves every bound `2 ^ k ≤ b`. -/
lemma floatOfNat_ge (b f k : Nat) (hb : 2 ^ k ≤ b) (hf : floatOfNat b = some f) :
    2 ^ k ≤ f := by
  unfold floatOfNat at hf
  by_cases hsmall : b < 2 ^ 53
  · rw [if_pos hsmall] at hf
    injection hf with h
    omega
  · rw [if_neg hsmall] at hf
    split at hf
    next hlt =>
      injection hf with h
      subst h
      have hb0 : b ≠ 0 := by
        have : (0 : Nat) < 2 ^ 53 := Nat.pos_pow_of_pos _ (by omega)
        omega
      have h53 : 53 ≤ pyLog2 b := le_pyLog2_of_pow_le 53 b (by omega)
      have hk : k ≤ pyLog2 b := le_pyLog2_of_pow_le k b hb
      have hq : 2 ^ 52 ≤ b / 2 ^ (pyLog2 b - 52) := by
        have h1 : 2 ^ pyLog2 b ≤ b := pow_pyLog2_le b hb0
        have h2 : 2 ^ pyLog2 b / 2 ^ (pyLog2 b - 52) ≤ b / 2 ^ (pyLog2 b - 52) :=
          Nat.div_le_div_right h1
        rwa [Nat.pow_div (by omega) (by omega),
          show pyLog2 b - (pyLog2 b - 52) = 52 by omega] at h2
      have hm : b / 2 ^ (pyLog2 b - 52) ≤ roundNearestEven b (2 ^ (pyLog2 b - 52)) :=
        roundNearestEven_ge _ _
      calc 2 ^ k ≤ 2 ^ pyLog2 b := Nat.pow_le_pow_right (by omega) hk
        _ = 2 ^ 52 * 2 ^ (pyLog2 b - 52) := by
            rw [← pow_add]
            congr 1
            omega
        _ ≤ roundNearestEven b (2 ^ (pyLog2 b - 52)) * 2 ^ (pyLog2 b - 52) :=
            Nat.mul_le_mul_right _ (le_trans hq hm)
    next => cases hf

/-! ### Characterizations of the tracker operations -/

lemma file_write_func_ok (s : RequestState) (f : String) (len : Nat) (e : ProgressEntry)
    (hcl : s.closed = false) (hup : s.upload_request = true)
    (he : dictGet s.progress f = some e)
    (hfmt : (human_readable_filesize (e.uploaded_bytes + len)).isSome = true) :
    ∃ s', file_write_func f len s = .ok s' ∧
      s'.closed = false ∧ s'.upload_request = true ∧
      s'.progress = dictSet s.progress f ⟨e.uploaded_bytes + len, e.complete⟩ := by
  obtain ⟨str, hstr⟩ := Option.isSome_iff_exists.mp hfmt
  obtain ⟨cl, up, clen, prog, prev⟩ := s
  simp only at hcl hup he
  subst hcl hup
  simp only [file_write_func, he, hstr, Bool.false_eq_true, if_false, if_true]
  split <;> exact ⟨_, rfl, rfl, rfl, rfl⟩

lemma file_write_func_overflow (s : RequestState) (f : String) (len : Nat) (e : ProgressEntry)
    (hcl : s.closed = false) (hup : s.upload_request = true)
    (he : dictGet s.progress f = some e)
    (hfmt : human_readable_filesize (e.uploaded_bytes + len) = none) :
    file_write_func f len s = .error "IndexError" := by
  obtain ⟨cl, up, clen, prog, prev⟩ := s
  simp only at hcl hup he
  subst hcl hup
  simp [file_write_func, he, hfmt]

lemma file_write_func_closed (s : RequestState) (f : String) (len : Nat)
    (hcl : s.closed = true) : file_write_func f len s = .ok s := by
  simp [file_write_func, hcl]

lemma file_write_func_not_upload (s : RequestState) (f : String) (len : Nat)
    (hcl : s.closed = false) (hup : s.upload_request = false) :
    file_write_func f len s = .ok s := by
  simp [file_write_func, hcl, hup]

lemma file_write_func_missing (s : RequestState) (f : String) (len : Nat)
    (hcl : s.closed = false) (hup : s.upload_request = true)
    (he : dictGet s.progress f = none) :
    file_write_func f len s = .error "KeyError" := by
  simp [file_write_func, hcl, hup, he]

lemma file_close_func_ok (s : RequestState) (f : String) (e : ProgressEntry)
    (he : dictGet s.progress f = some e) :
    file_close_func f s = .ok { s with progress := dictSet s.progress f ⟨e.uploaded_bytes, true⟩ } := by
  simp [file_close_func, he]

lemma file_close_func_missing (s : RequestState) (f : String)
    (he : dictGet s.progress f = none) : file_close_func f s = .error "KeyError" := by
  simp [file_close_func, he]

lemma finalizeFlag_progress (s : RequestState) :
    (finalizeFlag s).progress = s.progress := by
  unfold finalizeFlag; split <;> rfl

lemma finalizeFlag_closed (s : RequestState) :
    (finalizeFlag s).closed = true := by
  unfold finalizeFlag
  split
  · assumption
  · rfl

lemma CustomRequest_close_ok (files : List String) (s s₁ : RequestState)
    (h : CustomRequest_close files s = .ok s₁) :
    ∃ t, closeFiles files s = .ok t ∧ s₁ = finalizeFlag t := by
  unfold CustomRequest_close at h
  split at h
  next e heq => cases h
  next t heq =>
    injection h with h2
    exact ⟨t, heq, h2.symm⟩

/-- Closing the streams preserves each entry's byte count and never
clears a completion flag. -/
lemma closeFiles_entry (l : List String) :
    ∀ (s t : RequestState) (fid : String) (e : ProgressEntry),
    closeFiles l s = .ok t → dictGet s.progress fid = some e →
    ∃ e', dictGet t.progress fid = some e' ∧
      e'.uploaded_bytes = e.uploaded_bytes ∧ (e.complete = true → e'.complete = true) := by
  induction l with
  | nil =>
    intro s t fid e h he
    simp only [closeFiles, Except.ok.injEq] at h
    subst h
    exact ⟨e, he, rfl, fun hc => hc⟩
  | cons g rest ih =>
    intro s t fid e h he
    simp only [closeFiles] at h
    cases hget : dictGet s.progress g with
    | none => rw [file_close_func_missing s g hget] at h; simp at h
    | some ent =>
      rw [file_close_func_ok s g ent hget] at h
      by_cases hg : g = fid
      · subst hg
        rw [he] at hget
        injection hget with hge
        subst hge
        have he' : dictGet ({ s with
            progress := dictSet s.progress g ⟨e.uploaded_bytes, true⟩ } : RequestState).progress g =
            some ⟨e.uploaded_bytes, true⟩ := by
          simp [dictGet_dictSet_self]
        obtain ⟨e'', h1, h2, h3⟩ := ih _ t g ⟨e.uploaded_bytes, true⟩ h he'
        exact ⟨e'', h1, h2, fun _ => h3 rfl⟩
      · have he' : dictGet ({ s with
            progress := dictSet s.progress g ⟨ent.uploaded_bytes, true⟩ } : RequestState).progress fid =
            some e := by
          simp [dictGet_dictSet_ne _ g fid _ hg, he]
        exact ih _ t fid e h he'

lemma step_entry_mono (s s₁ : RequestState) (ev : Ev) (fid : String) (e : ProgressEntry)
    (hev : ev ≠ Ev.getStream fid) (hstep : step s ev = .ok s₁)
    (he : dictGet s.progress fid = some e) :
    ∃ e₁, dictGet s₁.progress fid = some e₁ ∧
      e.uploaded_bytes ≤ e₁.uploaded_bytes ∧ (e.complete = true → e₁.complete = true) := by
  cases ev with
  | getStream f =>
    have hf : ¬(f = fid) := fun h => hev (by rw [h])
    simp only [step, Except.ok.injEq] at hstep
    subst hstep
    refine ⟨e, ?_, le_refl _, fun hc => hc⟩
    cases hup : s.upload_request
    · simp [_get_file_stream, hup, he]
    · simp [_get_file_stream, hup, dictGet_dictSet_ne _ f fid _ hf, he]
  | fileWrite f len =>
    have hstep' : file_write_func f len s = .ok s₁ := hstep
    cases hcl : s.closed
    · cases hup : s.upload_request
      · rw [file_write_func_not_upload s f len hcl hup] at hstep'
        simp only [Except.ok.injEq] at hstep'
        subst hstep'
        exact ⟨e, he, le_refl _, fun hc => hc⟩
      · cases hget : dictGet s.progress f with
        | none => rw [file_write_func_missing s f len hcl hup hget] at hstep'; cases hstep'
        | some ent =>
          cases hfmt : human_readable_filesize (ent.uploaded_bytes + len) with
          | none =>
            rw [file_write_func_overflow s f len ent hcl hup hget hfmt] at hstep'
            cases hstep'
          | some str =>
            have hfs : (human_readable_filesize (ent.uploaded_bytes + len)).isSome = true := by
              rw [hfmt]; rfl
            obtain ⟨s', heq, _, _, hprog⟩ := file_write_func_ok s f len ent hcl hup hget hfs
            rw [heq] at hstep'
            simp only [Except.ok.injEq] at hstep'
            subst hstep'
            by_cases hf : f = fid
            · subst hf
              rw [he] at hget
              simp only [Option.some.injEq] at hget
              subst hget
              refine ⟨⟨e.uploaded_bytes + len, e.complete⟩, ?_, Nat.le_add_right _ _, fun hc => hc⟩
              rw [hprog, dictGet_dictSet_self]
            · refine ⟨e, ?_, le_refl _, fun hc => hc⟩
              rw [hprog, dictGet_dictSet_ne _ f fid _ hf, he]
    · rw [file_write_func_closed s f len hcl] at hstep'
      simp only [Except.ok.injEq] at hstep'
      subst hstep'
      exact ⟨e, he, le_refl _, fun hc => hc⟩
  | fileClose f =>
    have hstep' : file_close_func f s = .ok s₁ := hstep
    cases hget : dictGet s.progress f with
    | none => rw [file_close_func_missing s f hget] at hstep'; cases hstep'
    | some ent =>
      rw [file_close_func_ok s f ent hget] at hstep'
      simp only [Except.ok.injEq] at hstep'
      subst hstep'
      by_cases hf : f = fid
      · subst hf
        rw [he] at hget
        simp only [Option.some.injEq] at hget
        subst hget
        refine ⟨⟨e.uploaded_bytes, true⟩, ?_, le_refl _, fun _ => rfl⟩
        simp [dictGet_dictSet_self]
      · refine ⟨e, ?_, le_refl _, fun hc => hc⟩
        simp [dictGet_dictSet_ne _ f fid _ hf, he]
  | reqClose files =>
    have hstep' : CustomRequest_close files s = .ok s₁ := hstep
    obtain ⟨t, hcf, rfl⟩ := CustomRequest_close_ok files s s₁ hstep'
    obtain ⟨e', he', hb, hcmp⟩ := closeFiles_entry files s t fid e hcf he
    exact ⟨e', by rw [finalizeFlag_progress]; exact he', by omega, hcmp⟩

lemma applyEvents_entry_mono (evs : List Ev) :
    ∀ (s s' : RequestState) (fid : String) (e : ProgressEntry),
    Ev.getStream fid ∉ evs → applyEvents evs s = .ok s' →
    dictGet s.progress fid = some e →
    ∃ e', dictGet s'.progress fid = some e' ∧
      e.uploaded_bytes ≤ e'.uploaded_bytes ∧ (e.complete = true → e'.complete = true) := by
  induction evs with
  | nil =>
    intro s s' fid e _ hrun he
    simp only [applyEvents, Except.ok.injEq] at hrun
    subst hrun
    exact ⟨e, he, le_refl _, fun hc => hc⟩
  | cons ev rest ih =>
    intro s s' fid e hno hrun he
    have hev : ev ≠ Ev.getStream fid := fun h => hno (by rw [h]; exact List.mem_cons_self _ _)
    have hno' : Ev.getStream fid ∉ rest := fun h => hno (List.mem_cons_of_mem _ h)
    simp only [applyEvents] at hrun
    cases hstep : step s ev with
    | error msg => rw [hstep] at hrun; cases hrun
    | ok s₁ =>
      rw [hstep] at hrun
      obtain ⟨e₁, he₁, hb₁, hc₁⟩ := step_entry_mono s s₁ ev fid e hev hstep he
      obtain ⟨e', he', hb', hc'⟩ := ih s₁ s' fid e₁ hno' hrun he₁
      exact ⟨e', he', le_trans hb₁ hb', fun hc => hc' (hc₁ hc)⟩

/-! ### Prefix sums of write events -/

lemma applyEvents_writes_sum (ds : List Nat) :
    ∀ (s : RequestState) (fid : String) (b : Nat) (c : Bool),
    s.upload_request = true → s.closed = false →
    dictGet s.progress fid = some ⟨b, c⟩ →
    (∀ k, k ≤ ds.length → (human_readable_filesize (b + (ds.take k).sum)).isSome = true) →
    ∃ s', applyEvents (ds.map (Ev.fileWrite fid)) s = .ok s' ∧
      dictGet s'.progress fid = some ⟨b + ds.sum, c⟩ ∧
      s'.upload_request = true ∧ s'.closed = false := by
  induction ds with
  | nil =>
    intro s fid b c hup hcl he _
    exact ⟨s, rfl, by simpa using he, hup, hcl⟩
  | cons d rest ih =>
    intro s fid b c hup hcl he hfmt
    have hfmt1 : (human_readable_filesize (b + d)).isSome = true := by
      have := hfmt 1 (by simp)
      simpa using this
    obtain ⟨s₁, heq, hcl₁, hup₁, hprog₁⟩ := file_write_func_ok s fid d ⟨b, c⟩ hcl hup he hfmt1
    have he₁ : dictGet s₁.progress fid = some ⟨b + d, c⟩ := by
      rw [hprog₁, dictGet_dictSet_self]
    have hfmt' : ∀ k, k ≤ rest.length →
        (human_readable_filesize (b + d + (rest.take k).sum)).isSome = true := by
      intro k hk
      have := hfmt (k + 1) (by simpa using Nat.succ_le_succ hk)
      simpa [Nat.add_assoc] using this
    obtain ⟨s', hrun, he', hup', hcl'⟩ := ih s₁ fid (b + d) c hup₁ hcl₁ he₁ hfmt'
    refine ⟨s', ?_, by simpa [Nat.add_assoc] using he', hup', hcl'⟩
    simp only [List.map_cons, applyEvents, step, heq]
    exact hrun

lemma _get_file_stream_entry (s : RequestState) (f : String)
    (hup : s.upload_request = true) :
    dictGet (_get_file_stream f s).progress f = some ⟨0, false⟩ ∧
      (_get_file_stream f s).upload_request = true ∧
      (_get_file_stream f s).closed = s.closed := by
  simp [_get_file_stream, hup, dictGet_dictSet_self]

lemma round10_nat (n : Nat) : round10 n 1 = 10 * n := by
  unfold round10
  have h1 : 10 * n % 1 = 0 := Nat.mod_one _
  have h2 : 10 * n / 1 = 10 * n := Nat.div_one _
  simp [h1, h2]

lemma fmt1_nat (n : Nat) : fmt1 n 1 = toString n ++ ".0" := by
  simp only [fmt1, round10_nat]
  rw [show 10 * n / 10 = n by omega, show 10 * n % 10 = 0 by omega, String.append_assoc]
  exact congrArg (fun t => toString n ++ t) (by decide)

/-- The unit chosen by the loop for a converted value `f` in the covered
range: the index is in bounds, the exact scaled value is below 1024, and
every smaller index leaves the scaled value at or above 1024. -/
lemma unit_selection (f : Nat) (hf : 1024 ≤ f) (hf9 : f < 1024 ^ 9) :
    unitIndex (f / 1024) < hr_units.length ∧
    (f : ℚ) / 1024 ^ (unitIndex (f / 1024) + 1) < 1024 ∧
    ∀ j, j < unitIndex (f / 1024) → 1024 ≤ (f : ℚ) / 1024 ^ (j + 1) := by
  have hdivlt : f / 1024 < 1024 ^ 8 := by
    apply Nat.div_lt_of_lt_mul
    calc f < 1024 ^ 9 := hf9
      _ = 1024 * 1024 ^ 8 := by ring
  have hule : unitIndex (f / 1024) ≤ 7 := unitIndex_le_of_lt_pow 7 _ hdivlt
  refine ⟨by simp only [hr_units, List.length_cons, List.length_nil]; omega, ?_, ?_⟩
  · have h1 : f / 1024 < 1024 ^ (unitIndex (f / 1024) + 1) := lt_pow_unitIndex (f / 1024)
    have h3 : f % 1024 < 1024 := Nat.mod_lt _ (by omega)
    have h2 := Nat.div_add_mod f 1024
    have hb2 : f < 1024 ^ (unitIndex (f / 1024) + 2) := by
      calc f < 1024 * (f / 1024 + 1) := by omega
        _ ≤ 1024 * 1024 ^ (unitIndex (f / 1024) + 1) :=
            Nat.mul_le_mul_left _ (by omega)
        _ = 1024 ^ (unitIndex (f / 1024) + 2) := by ring
    have hcast : (f : ℚ) < 1024 ^ (unitIndex (f / 1024) + 2) := by exact_mod_cast hb2
    rw [div_lt_iff₀ (by positivity)]
    calc (f : ℚ) < 1024 ^ (unitIndex (f / 1024) + 2) := hcast
      _ = 1024 * 1024 ^ (unitIndex (f / 1024) + 1) := by ring
  · intro j hj
    have hpow : 1024 ^ (j + 1) ≤ f / 1024 := by
      by_contra hcon
      push_neg at hcon
      have := unitIndex_le_of_lt_pow j (f / 1024) hcon
      omega
    have hble : 1024 ^ (j + 2) ≤ f := by
      have hmul := (Nat.le_div_iff_mul_le (by omega : 0 < 1024)).mp hpow
      calc (1024 : Nat) ^ (j + 2) = 1024 ^ (j + 1) * 1024 := by ring
        _ ≤ f := hmul
    have hcast : (1024 : ℚ) ^ (j + 2) ≤ (f : ℚ) := by exact_mod_cast hble
    rw [le_div_iff₀ (by positivity)]
    calc (1024 : ℚ) * 1024 ^ (j + 1) = 1024 ^ (j + 2) := by ring
      _ ≤ (f : ℚ) := hcast

/-- Below `2 ^ 53` the formatter always returns a string: the conversion
is exact and the unit index stays within the tuple. -/
lemma human_readable_filesize_isSome_of_lt (b : Nat) (hb : b < 2 ^ 53) :
    (human_readable_filesize b).isSome = true := by
  by_cases h : b < 1024
  · simp [human_readable_filesize, h]
  · have hfl : floatOfNat b = some b := floatOfNat_of_lt b hb
    have hle : unitIndex (b / 1024) ≤ 7 := by
      apply unitIndex_le_of_lt_pow
      calc b / 1024 ≤ b := Nat.div_le_self _ _
        _ < 2 ^ 53 := hb
        _ ≤ 1024 ^ 8 := by norm_num
    have hlen : unitIndex (b / 1024) < hr_units.length := by
      simp only [hr_units, List.length_cons, List.length_nil]
      omega
    simp [human_readable_filesize, h, hfl, List.getElem?_eq_getElem hlen]

/-! ### Claims -/

set_option maxRecDepth 8192 in
/-- C1 counterexample: the progress print inside `file_write_func` makes
a write raise — a single delta of `1024 ^ 9` overflows the unit tuple of
`human_readable_filesize`, so the write event errors instead of
returning, refuting the unconditional prefix-sum claim. -/
theorem write_overflowing_total_raises_concrete :
    applyEvents ([1024 ^ 9].map (Ev.fileWrite "a"))
        (_get_file_stream "a" (CustomRequest_attrs "POST" (some "12"))) =
      .error "IndexError" := rfl

/-- C1 amended: on an open upload request, after the stream for a file
part is created and any sequence of write events with deltas `d1..dn` is
applied to that file's entry — provided every prefix total is small
enough for the progress print's formatter to return (it raises
`IndexError` otherwise) — `uploaded_bytes` equals `d1 + ... + dn`, and
after each prefix of `k` writes it equals `d1 + ... + dk`: the exact
prefix sum at every observation point, with the entry still
incomplete. -/
theorem uploaded_bytes_prefix_sum (s : RequestState) (fid : String) (ds : List Nat) (k : Nat)
    (hup : s.upload_request = true) (hcl : s.closed = false) (hk : k ≤ ds.length)
    (hfmt : ∀ j, j ≤ ds.length → (human_readable_filesize ((ds.take j).sum)).isSome = true) :
    ∃ s', applyEvents ((ds.take k).map (Ev.fileWrite fid)) (_get_file_stream fid s) = .ok s' ∧
      dictGet s'.progress fid = some ⟨(ds.take k).sum, false⟩ := by
  obtain ⟨he0, hup0, hcl0⟩ := _get_file_stream_entry s fid hup
  rw [hcl] at hcl0
  have hfmt' : ∀ j, j ≤ (ds.take k).length →
      (human_readable_filesize (0 + ((ds.take k).take j).sum)).isSome = true := by
    intro j hj
    rw [List.take_take, Nat.zero_add]
    exact hfmt (min j k) (le_trans (min_le_right j k) hk)
  obtain ⟨s', hrun, he', _, _⟩ :=
    applyEvents_writes_sum (ds.take k) (_get_file_stream fid s) fid 0 false hup0 hcl0 he0 hfmt'
  exact ⟨s', hrun, by simpa using he'⟩

/-- C1 amended, witness: a concrete instance — deltas `[3, 4, 5]`,
prefix of length 2, entry at 7 = 3 + 4. -/
theorem uploaded_bytes_prefix_sum_witness :
    (CustomRequest_attrs "POST" (some "12")).upload_request = true ∧
    (CustomRequest_attrs "POST" (some "12")).closed = false ∧
    2 ≤ [3, 4, 5].length ∧
    (∀ j, j ≤ [3, 4, 5].length → (human_readable_filesize (([3, 4, 5].take j).sum)).isSome = true) ∧
    (∃ s', applyEvents (([3, 4, 5].take 2).map (Ev.fileWrite "a"))
        (_get_file_stream "a" (CustomRequest_attrs "POST" (some "12"))) = .ok s' ∧
      dictGet s'.progress "a" = some ⟨([3, 4, 5].take 2).sum, false⟩) :=
  ⟨by decide, by decide, by decide, by decide,
    uploaded_bytes_prefix_sum (CustomRequest_attrs "POST" (some "12")) "a" [3, 4, 5] 2
      (by decide) (by decide) (by decide) (by decide)⟩

/-- C2 counterexample: on a fresh upload request (no entry exists for the
file yet), `file_write_func` raises a `KeyError` instead of creating the
entry and applying the delta, refuting the claim that the call does not
raise. -/
theorem write_missing_entry_raises_concrete :
    (CustomRequest_init "POST" (some "100")).bind (file_write_func "file.txt" 5) =
      Except.error "KeyError" := rfl

/-- C2 amended: on an open upload request, calling `file_write_func` for
a `file_id` with no entry raises `KeyError` (it does not create the
entry); an entry is created only by `_get_file_stream`, which
initializes it to `{0, false}`, after which a write applies its delta —
provided the delta is small enough for the progress print's formatter to
return. -/
theorem write_missing_entry_keyerror (s : RequestState) (fid : String) (len : Nat)
    (hup : s.upload_request = true) (hcl : s.closed = false)
    (hnone : dictGet s.progress fid = none)
    (hfmt : (human_readable_filesize len).isSome = true) :
    file_write_func fid len s = .error "KeyError" ∧
    ∃ s', file_write_func fid len (_get_file_stream fid s) = .ok s' ∧
      dictGet s'.progress fid = some ⟨len, false⟩ := by
  refine ⟨file_write_func_missing s fid len hcl hup hnone, ?_⟩
  obtain ⟨he0, hup0, hcl0⟩ := _get_file_stream_entry s fid hup
  rw [hcl] at hcl0
  have hfmt0 : (human_readable_filesize
      ((⟨0, false⟩ : ProgressEntry).uploaded_bytes + len)).isSome = true := by
    simpa using hfmt
  obtain ⟨s', heq, _, _, hprog⟩ :=
    file_write_func_ok (_get_file_stream fid s) fid len ⟨0, false⟩ hcl0 hup0 he0 hfmt0
  refine ⟨s', heq, ?_⟩
  rw [hprog, dictGet_dictSet_self]
  simp

/-- C2 amended, witness: a concrete instance of both conjuncts. -/
theorem write_missing_entry_keyerror_witness :
    (CustomRequest_attrs "POST" none).upload_request = true ∧
    (CustomRequest_attrs "POST" none).closed = false ∧
    dictGet (CustomRequest_attrs "POST" none).progress "b.txt" = none ∧
    (human_readable_filesize 9).isSome = true ∧
    (file_write_func "b.txt" 9 (CustomRequest_attrs "POST" none) = .error "KeyError" ∧
      ∃ s', file_write_func "b.txt" 9
          (_get_file_stream "b.txt" (CustomRequest_attrs "POST" none)) = .ok s' ∧
        dictGet s'.progress "b.txt" = some ⟨9, false⟩) :=
  ⟨by decide, by decide, by decide, by decide,
    write_missing_entry_keyerror (CustomRequest_attrs "POST" none) "b.txt" 9
      (by decide) (by decide) (by decide) (by decide)⟩

/-- C3 counterexample: `file_close_func` for a file_id never seen by the
tracker is not a silent no-op — on the concrete freshly-constructed
upload request it raises a `KeyError`. -/
theorem close_never_seen_raises_concrete :
    (CustomRequest_init "POST" (some "50")).bind (file_close_func "other.txt") =
      Except.error "KeyError" := rfl

/-- C3 amended: calling `file_close_func` with a `file_id` that has no
entry in the tracker raises a `KeyError` (and therefore creates no
entry); it is not a silent no-op. -/
theorem close_missing_entry_keyerror (s : RequestState) (fid : String)
    (hnone : dictGet s.progress fid = none) :
    file_close_func fid s = .error "KeyError" :=
  file_close_func_missing s fid hnone

/-- C3 amended, witness: a concrete never-seen `file_id`. -/
theorem close_missing_entry_keyerror_witness :
    dictGet (CustomRequest_attrs "POST" none).progress "c.txt" = none ∧
    file_close_func "c.txt" (CustomRequest_attrs "POST" none) = .error "KeyError" :=
  ⟨by decide, close_missing_entry_keyerror (CustomRequest_attrs "POST" none) "c.txt" (by decide)⟩

/-- C4 counterexample: a second `_get_file_stream` for the same filename
(a second file part declaring the same name) resets that file's entry —
`uploaded_bytes` drops from 5 to 0 and `complete` reverts from `true` to
`false`, refuting monotonicity across all tracker operations. -/
theorem duplicate_filename_resets_progress :
    (((CustomRequest_init "POST" (some "350")).bind
        (applyEvents [Ev.getStream "a", Ev.fileWrite "a" 5, Ev.fileClose "a"])).toOption.bind
      (fun s => dictGet s.progress "a") = some ⟨5, true⟩) ∧
    (((CustomRequest_init "POST" (some "350")).bind
        (applyEvents [Ev.getStream "a", Ev.fileWrite "a" 5, Ev.fileClose "a",
          Ev.getStream "a"])).toOption.bind
      (fun s => dictGet s.progress "a") = some ⟨0, false⟩) :=
  ⟨by decide, by decide⟩

/-- C4 amended: along any successful event sequence that does not contain
a (re-)creation of the stream for the observed `file_id`, that file's
`uploaded_bytes` never decreases and its `complete` flag never reverts
from `true` to `false`; a second file part declaring the same filename,
however, resets the entry to `{0, false}` via `_get_file_stream`. -/
theorem progress_entry_monotone (evs : List Ev) (s s' : RequestState) (fid : String)
    (e e' : ProgressEntry) (hno : Ev.getStream fid ∉ evs)
    (hrun : applyEvents evs s = .ok s') (he : dictGet s.progress fid = some e)
    (he' : dictGet s'.progress fid = some e') :
    e.uploaded_bytes ≤ e'.uploaded_bytes ∧ (e.complete = true → e'.complete = true) := by
  obtain ⟨e₁, he₁, hb, hc⟩ := applyEvents_entry_mono evs s s' fid e hno hrun he
  rw [he'] at he₁
  obtain rfl : e' = e₁ := by injection he₁
  exact ⟨hb, hc⟩

/-- C4 amended, witness: a write followed by a part close on the concrete
initial entry. -/
theorem progress_entry_monotone_witness :
    Ev.getStream "a" ∉ [Ev.fileWrite "a" 5, Ev.fileClose "a"] ∧
    applyEvents [Ev.fileWrite "a" 5, Ev.fileClose "a"]
        (_get_file_stream "a" (CustomRequest_attrs "POST" none)) =
      .ok (⟨false, true, 0, [("a", ⟨5, true⟩)], some "a"⟩ : RequestState) ∧
    dictGet (_get_file_stream "a" (CustomRequest_attrs "POST" none)).progress "a" =
      some ⟨0, false⟩ ∧
    dictGet (⟨false, true, 0, [("a", ⟨5, true⟩)], some "a"⟩ : RequestState).progress "a" =
      some ⟨5, true⟩ ∧
    ((⟨0, false⟩ : ProgressEntry).uploaded_bytes ≤ (⟨5, true⟩ : ProgressEntry).uploaded_bytes ∧
      ((⟨0, false⟩ : ProgressEntry).complete = true → (⟨5, true⟩ : ProgressEntry).complete = true)) :=
  ⟨by decide, rfl, by decide, by decide,
    progress_entry_monotone [Ev.fileWrite "a" 5, Ev.fileClose "a"]
      (_get_file_stream "a" (CustomRequest_attrs "POST" none))
      (⟨false, true, 0, [("a", ⟨5, true⟩)], some "a"⟩ : RequestState) "a"
      ⟨0, false⟩ ⟨5, true⟩ (by decide) rfl (by decide) (by decide)⟩

/-- C7: the tracked sink reports to the tracker only after the underlying
operation succeeded, and with the byte count the underlying sink actually
accepted (`n`), not the caller's buffer size (`bufLen`): a successful
underlying write adds exactly `n` to the entry (provided the progress
print's formatter returns on the new total); a failed underlying write
propagates the error and reports nothing; a successful underlying close
marks the entry complete; a failed underlying close propagates the error
and reports no completion. -/
theorem tracked_sink_reports_actual_bytes (s : RequestState) (fid : String)
    (bufLen n : Nat) (msg : String) (e : ProgressEntry)
    (hup : s.upload_request = true) (hcl : s.closed = false)
    (he : dictGet s.progress fid = some e)
    (hfmt : (human_readable_filesize (e.uploaded_bytes + n)).isSome = true) :
    (∃ s', CustomTemporaryFile_write fid bufLen (.ok n) s = .ok s' ∧
      dictGet s'.progress fid = some ⟨e.uploaded_bytes + n, e.complete⟩) ∧
    CustomTemporaryFile_write fid bufLen (.error msg) s = .error msg ∧
    (∃ s'', CustomTemporaryFile_close fid (.ok ()) s = .ok s'' ∧
      dictGet s''.progress fid = some ⟨e.uploaded_bytes, true⟩) ∧
    CustomTemporaryFile_close fid (.error msg) s = .error msg := by
  refine ⟨?_, rfl, ?_, rfl⟩
  · obtain ⟨s', heq, _, _, hprog⟩ := file_write_func_ok s fid n e hcl hup he hfmt
    exact ⟨s', heq, by rw [hprog, dictGet_dictSet_self]⟩
  · exact ⟨_, file_close_func_ok s fid e he,
      by simpa using dictGet_dictSet_self s.progress fid ⟨e.uploaded_bytes, true⟩⟩

/-- C7 witness: a concrete request whose sink accepts 7 of the caller's
9 bytes, and a concrete failing sink. -/
theorem tracked_sink_reports_actual_bytes_witness :
    (_get_file_stream "a" (CustomRequest_attrs "POST" (some "10"))).upload_request = true ∧
    (_get_file_stream "a" (CustomRequest_attrs "POST" (some "10"))).closed = false ∧
    dictGet (_get_file_stream "a" (CustomRequest_attrs "POST" (some "10"))).progress "a" =
      some ⟨0, false⟩ ∧
    (human_readable_filesize ((⟨0, false⟩ : ProgressEntry).uploaded_bytes + 7)).isSome = true ∧
    ((∃ s', CustomTemporaryFile_write "a" 9 (.ok 7)
          (_get_file_stream "a" (CustomRequest_attrs "POST" (some "10"))) = .ok s' ∧
        dictGet s'.progress "a" =
          some ⟨(⟨0, false⟩ : ProgressEntry).uploaded_bytes + 7, (⟨0, false⟩ : ProgressEntry).complete⟩) ∧
      CustomTemporaryFile_write "a" 9 (.error "disk full")
          (_get_file_stream "a" (CustomRequest_attrs "POST" (some "10"))) = .error "disk full" ∧
      (∃ s'', CustomTemporaryFile_close "a" (.ok ())
          (_get_file_stream "a" (CustomRequest_attrs "POST" (some "10"))) = .ok s'' ∧
        dictGet s''.progress "a" = some ⟨(⟨0, false⟩ : ProgressEntry).uploaded_bytes, true⟩) ∧
      CustomTemporaryFile_close "a" (.error "disk full")
          (_get_file_stream "a" (CustomRequest_attrs "POST" (some "10"))) = .error "disk full") :=
  ⟨by decide, by decide, by decide, by decide,
    tracked_sink_reports_actual_bytes
      (_get_file_stream "a" (CustomRequest_attrs "POST" (some "10"))) "a" 9 7 "disk full"
      ⟨0, false⟩ (by decide) (by decide) (by decide) (by decide)⟩

/-- C8: once the request's finalize step has returned, `closed` is set
and any further write event is a no-op — the closed guard returns before
any state access or print, so the state is returned entirely unchanged
and every progress entry keeps its `uploaded_bytes` and `complete`. -/
theorem write_after_finalize_noop (files : List String) (s s₁ : RequestState)
    (fid : String) (len : Nat) (h : CustomRequest_close files s = .ok s₁) :
    s₁.closed = true ∧ file_write_func fid len s₁ = .ok s₁ := by
  obtain ⟨t, _, rfl⟩ := CustomRequest_close_ok files s s₁ h
  exact ⟨finalizeFlag_closed t,
    file_write_func_closed _ fid len (finalizeFlag_closed t)⟩

/-- C8 witness: a concrete finalized request; the post-close write (even
with an overflowing delta — the guard returns before the print) changes
nothing. -/
theorem write_after_finalize_noop_witness :
    CustomRequest_close [] (⟨false, true, 0, [("a", ⟨7, false⟩)], none⟩ : RequestState) =
      .ok (⟨true, true, 0, [("a", ⟨7, false⟩)], none⟩ : RequestState) ∧
    ((⟨true, true, 0, [("a", ⟨7, false⟩)], none⟩ : RequestState).closed = true ∧
      file_write_func "a" (1024 ^ 9) (⟨true, true, 0, [("a", ⟨7, false⟩)], none⟩ : RequestState) =
        .ok (⟨true, true, 0, [("a", ⟨7, false⟩)], none⟩ : RequestState)) :=
  ⟨rfl, write_after_finalize_noop []
    (⟨false, true, 0, [("a", ⟨7, false⟩)], none⟩ : RequestState)
    (⟨true, true, 0, [("a", ⟨7, false⟩)], none⟩ : RequestState) "a" (1024 ^ 9) rfl⟩

/-- C9 counterexample: at the concrete input 1048570 the code renders
`"1024.0 KiB"` — the displayed value is 1024.0, not below 1024 — while
the spec's unit-selection rule (largest unit whose displayed, rounded
value is below 1024) would render `"1.0 MiB"`. -/
theorem formatter_rounds_to_1024_concrete :
    human_readable_filesize 1048570 = some "1024.0 KiB" ∧
    spec_filesize 1048570 = some "1.0 MiB" ∧
    human_readable_filesize 1048570 ≠ spec_filesize 1048570 :=
  ⟨by decide, by decide, by decide⟩

/-- C9 amended: every input below 1024 renders as `"<x>.0 B"`; the
reference points 1024 → `"1.0 KiB"`, 1048576 → `"1.0 MiB"`,
1572864 → `"1.5 MiB"` hold; for every `b` with `1024 ≤ b < 2^53` (the
range on which the input converts to a double exactly) the formatter
renders the scaled value `b / 1024^(u+1)` with one decimal place and unit
`units[u]`, where `u` is the least unit index making the exact scaled
value (before rounding) smaller than 1024 — the rounded, displayed value
may still read `1024.0`; and for `b ≥ 2^53` the same holds of the
rounded double value `f` produced by the conversion, as long as `f`
stays below `1024^9` (beyond which the call fails). -/
theorem formatter_amended :
    (∀ x : Nat, x < 1024 → human_readable_filesize x = some (toString x ++ ".0 B")) ∧
    human_readable_filesize 1024 = some "1.0 KiB" ∧
    human_readable_filesize 1048576 = some "1.0 MiB" ∧
    human_readable_filesize 1572864 = some "1.5 MiB" ∧
    (∀ b : Nat, 1024 ≤ b → b < 2 ^ 53 →
      ∃ u unit, hr_units[u]? = some unit ∧
        human_readable_filesize b = some (fmt1 b (1024 ^ (u + 1)) ++ " " ++ unit) ∧
        (b : ℚ) / 1024 ^ (u + 1) < 1024 ∧
        ∀ j, j < u → 1024 ≤ (b : ℚ) / 1024 ^ (j + 1)) ∧
    (∀ b f : Nat, 2 ^ 53 ≤ b → floatOfNat b = some f → f < 1024 ^ 9 →
      ∃ u unit, hr_units[u]? = some unit ∧
        human_readable_filesize b = some (fmt1 f (1024 ^ (u + 1)) ++ " " ++ unit) ∧
        (f : ℚ) / 1024 ^ (u + 1) < 1024 ∧
        ∀ j, j < u → 1024 ≤ (f : ℚ) / 1024 ^ (j + 1)) := by
  refine ⟨?_, by decide, by decide, by decide, ?_, ?_⟩
  · intro x hx
    unfold human_readable_filesize
    rw [if_pos hx, fmt1_nat, String.append_assoc]
    exact congrArg (fun t => some (toString x ++ t)) (by decide)
  · intro b hb hb53
    have hb9 : b < 1024 ^ 9 := by
      have hle : (2 : Nat) ^ 53 ≤ 1024 ^ 9 := by norm_num
      omega
    obtain ⟨hlen, hscaled, hmin⟩ := unit_selection b hb hb9
    refine ⟨unitIndex (b / 1024), hr_units[unitIndex (b / 1024)],
      List.getElem?_eq_getElem hlen, ?_, hscaled, hmin⟩
    unfold human_readable_filesize
    rw [if_neg (by omega), floatOfNat_of_lt b hb53]
    show (match hr_units[unitIndex (b / 1024)]? with
      | some unit => some (fmt1 b (1024 ^ (unitIndex (b / 1024) + 1)) ++ " " ++ unit)
      | none => none) =
      some (fmt1 b (1024 ^ (unitIndex (b / 1024) + 1)) ++ " " ++ hr_units[unitIndex (b / 1024)])
    rw [List.getElem?_eq_getElem hlen]
  · intro b f hb53 hf hf9
    have h1le : (1024 : Nat) ≤ 2 ^ 53 := by norm_num
    have hbge : ¬ b < 1024 := by omega
    have hfge : 2 ^ 53 ≤ f := floatOfNat_ge b f 53 hb53 hf
    have hf1024 : 1024 ≤ f := by omega
    obtain ⟨hlen, hscaled, hmin⟩ := unit_selection f hf1024 hf9
    refine ⟨unitIndex (f / 1024), hr_units[unitIndex (f / 1024)],
      List.getElem?_eq_getElem hlen, ?_, hscaled, hmin⟩
    unfold human_readable_filesize
    rw [if_neg hbge, hf]
    show (match hr_units[unitIndex (f / 1024)]? with
      | some unit => some (fmt1 f (1024 ^ (unitIndex (f / 1024) + 1)) ++ " " ++ unit)
      | none => none) =
      some (fmt1 f (1024 ^ (unitIndex (f / 1024) + 1)) ++ " " ++ hr_units[unitIndex (f / 1024)])
    rw [List.getElem?_eq_getElem hlen]

set_option maxRecDepth 8192 in
/-- C9 amended, witness: the `B` bound at 512, the exact clause at 2048,
and the converted-value clause at the boundary `2^53` (whose conversion
is the identity on the mantissa-carrying power of two). -/
theorem formatter_amended_witness :
    512 < 1024 ∧ human_readable_filesize 512 = some (toString 512 ++ ".0 B") ∧
    1024 ≤ 2048 ∧ 2048 < 2 ^ 53 ∧
    (∃ u unit, hr_units[u]? = some unit ∧
      human_readable_filesize 2048 = some (fmt1 2048 (1024 ^ (u + 1)) ++ " " ++ unit) ∧
      (2048 : ℚ) / 1024 ^ (u + 1) < 1024 ∧
      ∀ j, j < u → 1024 ≤ (2048 : ℚ) / 1024 ^ (j + 1)) ∧
    2 ^ 53 ≤ 2 ^ 53 ∧ floatOfNat (2 ^ 53) = some (2 ^ 53) ∧ 2 ^ 53 < 1024 ^ 9 ∧
    (∃ u unit, hr_units[u]? = some unit ∧
      human_readable_filesize (2 ^ 53) = some (fmt1 (2 ^ 53) (1024 ^ (u + 1)) ++ " " ++ unit) ∧
      ((2 ^ 53 : Nat) : ℚ) / 1024 ^ (u + 1) < 1024 ∧
      ∀ j, j < u → 1024 ≤ ((2 ^ 53 : Nat) : ℚ) / 1024 ^ (j + 1)) :=
  ⟨by decide, formatter_amended.1 512 (by decide), by decide, by decide,
    formatter_amended.2.2.2.2.1 2048 (by decide) (by decide),
    le_refl _, by decide, by decide,
    formatter_amended.2.2.2.2.2 (2 ^ 53) (2 ^ 53) (le_refl _) (by decide) (by decide)⟩

/-- C10: for every input of at least `1024 ^ 9` bytes the call fails to
return a string: either the int-to-double conversion overflows, or the
unit-selection loop yields an index of 8 or more — past the end of the
8-element unit tuple — and `units[u]` raises `IndexError`; both are
modelled as `none`. -/
theorem formatter_overflow_index_error (b : Nat) (h : 1024 ^ 9 ≤ b) :
    human_readable_filesize b = none := by
  have hpow : (1024 : Nat) ^ 9 = 2 ^ 90 := by norm_num
  rw [hpow] at h
  have h1024 : (1024 : Nat) ≤ 2 ^ 90 := by norm_num
  have hnb : ¬ b < 1024 := by omega
  unfold human_readable_filesize
  rw [if_neg hnb]
  cases hf : floatOfNat b with
  | none => rfl
  | some f =>
    have hf90 : 2 ^ 90 ≤ f := floatOfNat_ge b f 90 h hf
    have hdiv : 1024 ^ 8 ≤ f / 1024 := by
      rw [Nat.le_div_iff_mul_le (by omega : 0 < 1024)]
      calc (1024 : Nat) ^ 8 * 1024 = 1024 ^ 9 := by ring
        _ = 2 ^ 90 := hpow
        _ ≤ f := hf90
    have h8 : 8 ≤ unitIndex (f / 1024) := le_unitIndex_of_pow_le 7 _ hdiv
    have hnone : hr_units[unitIndex (f / 1024)]? = none := by
      apply List.getElem?_eq_none
      simp only [hr_units, List.length_cons, List.length_nil]
      omega
    show (match hr_units[unitIndex (f / 1024)]? with
      | some unit => some (fmt1 f (1024 ^ (unitIndex (f / 1024) + 1)) ++ " " ++ unit)
      | none => none) = none
    rw [hnone]

/-- C10 witness: the boundary input `1024 ^ 9` itself. -/
theorem formatter_overflow_index_error_witness :
    1024 ^ 9 ≤ 1024 ^ 9 ∧ human_readable_filesize (1024 ^ 9) = none :=
  ⟨le_refl _, formatter_overflow_index_error (1024 ^ 9) (le_refl _)⟩
